import Mathlib

/-!
Verification of `flash-border-linux` (dingutil).

The program's pure logic is shallowly embedded below, translated directly
from `src/flash-border-linux.py`:

* `parse_color` (source lines 53-69) with its named-color table
  `NAMED_COLORS` (lines 40-50).  Python semantics are modelled exactly on
  the relevant fragment: `str.lower` is ASCII lowering (`pyLower`),
  `str.lstrip("#")` drops every leading `#`, and `int(s, 16)` is embedded
  as `pyIntHex` following Python's hex-literal grammar (surrounding ASCII
  whitespace, optional sign, optional `0x`/`0X` prefix, hex digits with
  single underscores between digits).  Python additionally accepts some
  Unicode whitespace and Unicode decimal digits; those inputs are
  immaterial to every claim below (they only move inputs between the
  accepted and the fallback branch, and both branches produce triples
  inside `[0,1]`).  Floating-point arithmetic of the source is modelled
  over `ℚ`; every constant involved (`k/255`, `0.6`, `16`, `1000`) is
  exact in both representations on the inputs the claims quantify over.

* `FlashBorderApp`: construction (`__init__`, lines 73-80), activation
  (`do_activate`, lines 82-93), the border draw callback (`_draw_border`,
  lines 132-150) as a list of emitted rectangle fills, the fade starter
  (`_start_fade`, lines 152-160) and the fade tick (`_fade_tick`,
  lines 162-171).

* the module-level `libgtk4-layer-shell` load guard (lines 24-29),
  with the success of the external `CDLL` call as a parameter.
-/

/-- ASCII lowercase conversion: the action of Python's `str.lower` on the
ASCII range (codepoints 65-90 map to 97-122, everything else in ASCII is
fixed). -/
def pyLower (c : Char) : Char :=
  if 65 ≤ c.toNat ∧ c.toNat ≤ 90 then Char.ofNat (c.toNat + 32) else c

/-- The ASCII hexadecimal digits `0`-`9`, `a`-`f`, `A`-`F`, exactly the
digits Python's `int(s, 16)` accepts from the ASCII range. -/
def isHexDigit (c : Char) : Bool :=
  (48 ≤ c.toNat && c.toNat ≤ 57) || (65 ≤ c.toNat && c.toNat ≤ 70) ||
    (97 ≤ c.toNat && c.toNat ≤ 102)

/-- Value of a hexadecimal digit (meaningful when `isHexDigit c`). -/
def hexVal (c : Char) : Nat :=
  if c.toNat ≤ 57 then c.toNat - 48
  else if c.toNat ≤ 70 then c.toNat - 55
  else c.toNat - 87

/-- ASCII whitespace stripped by Python's `int(s, base)`. -/
def isPyWs (c : Char) : Bool := c.toNat = 32 || (9 ≤ c.toNat && c.toNat ≤ 13)

/-- Digits of a hex numeral after the first one: Python's grammar
`hexdigit (["_"] hexdigit)*` — an underscore may separate two digits but
may not trail or repeat.  `justUnd` records that the previous character
was an underscore (so a digit must follow).  Accumulates the value
big-endian. -/
def hexDigitsCore : List Char → Bool → Nat → Option Nat
  | [], justUnd, acc => if justUnd then none else some acc
  | c :: rest, justUnd, acc =>
    if c = '_' then
      if justUnd then none else hexDigitsCore rest true acc
    else if isHexDigit c then hexDigitsCore rest false (acc * 16 + hexVal c)
    else none

/-- A nonempty run of hex digits with optional single underscores between
digits (no leading underscore), evaluated big-endian. -/
def hexDigits : List Char → Option Nat
  | [] => none
  | c :: rest => if isHexDigit c then hexDigitsCore rest false (hexVal c) else none

/-- Body of the numeral accepted by `int(s, 16)` after sign removal: an
optional `0x`/`0X` prefix (a single underscore may follow the prefix),
then hex digits. -/
def hexBody : List Char → Option Nat
  | c0 :: c1 :: rest =>
    if c0 = '0' ∧ (c1 = 'x' ∨ c1 = 'X') then
      match rest with
      | c2 :: rest2 => if c2 = '_' then hexDigits rest2 else hexDigits (c2 :: rest2)
      | [] => hexDigits []
    else hexDigits (c0 :: c1 :: rest)
  | l => hexDigits l

/-- Optional sign in front of the numeral body. -/
def signedHexBody : List Char → Option Int
  | [] => (hexBody []).map (fun n => (n : Int))
  | c :: rest =>
    if c = '+' then (hexBody rest).map (fun n => (n : Int))
    else if c = '-' then (hexBody rest).map (fun n => -(n : Int))
    else (hexBody (c :: rest)).map (fun n => (n : Int))

/-- Strip leading and trailing Python whitespace. -/
def stripWs (l : List Char) : List Char :=
  ((l.dropWhile isPyWs).reverse.dropWhile isPyWs).reverse

/-- Embedding of Python's `int(s, 16)`: `some` the parsed integer, `none`
when Python raises `ValueError`. -/
def pyIntHex (s : List Char) : Option Int := signedHexBody (stripWs s)

/-- The named-color table `NAMED_COLORS` of the source (lines 40-50),
keys as character lists, values as exact rational RGB triples. -/
def NAMED_COLORS : List (List Char × (ℚ × ℚ × ℚ)) :=
  [("red".data, (1, 0, 0)),
   ("orange".data, (1, 0.6, 0)),
   ("yellow".data, (1, 1, 0)),
   ("green".data, (0, 0.8, 0)),
   ("blue".data, (0, 0.4, 1)),
   ("purple".data, (0.6, 0.2, 0.8)),
   ("cyan".data, (0, 0.8, 0.8)),
   ("white".data, (1, 1, 1)),
   ("pink".data, (1, 0.4, 0.7))]

/-- Association lookup, the embedding of Python's dict membership test and
indexing on `NAMED_COLORS` (its keys are distinct). -/
def lookupColor : List Char → List (List Char × (ℚ × ℚ × ℚ)) → Option (ℚ × ℚ × ℚ)
  | _, [] => none
  | k, (k2, v) :: rest => if k = k2 then some v else lookupColor k rest

/-- Python `>>` on integers: floor division by a power of two (`Int`'s
`/` is Euclidean division, which coincides with floor division for a
positive divisor). -/
def pyShr (n : Int) (k : Nat) : Int := n / 2 ^ k

/-- Python `& 0xFF`: the remainder modulo 256 (Python's `&` on a
negative left operand follows two's-complement semantics, which is the
nonnegative remainder; `Int`'s `%` is that Euclidean remainder). -/
def pyAnd255 (n : Int) : Int := n % 256

/-- The channel extraction of `parse_color`'s hex branch
(source lines 62-66). -/
def hexTriple (val : Int) : ℚ × ℚ × ℚ :=
  ((pyAnd255 (pyShr val 16) : ℚ) / 255,
   (pyAnd255 (pyShr val 8) : ℚ) / 255,
   (pyAnd255 val : ℚ) / 255)

/-- Embedding of `parse_color` (source lines 53-69).  The first `let`
mirrors the source's unused local `lower`; the membership test uses
`name.lower()` (without `#`-stripping), the hex branch uses
`name.lstrip("#")` (without lowering), and both failure paths return
`NAMED_COLORS["red"] = (1, 0, 0)`. -/
def parse_color (name : String) : ℚ × ℚ × ℚ :=
  let _lower := (name.data.map pyLower).dropWhile (fun c => c = '#')
  match lookupColor (name.data.map pyLower) NAMED_COLORS with
  | some c => c
  | none =>
    let hexstr := name.data.dropWhile (fun c => c = '#')
    if hexstr.length = 6 then
      match pyIntHex hexstr with
      | some val => hexTriple val
      | none => (1, 0, 0)
    else (1, 0, 0)

/-- Python's `int()` applied to a (rational-modelled) float: truncation
toward zero. -/
def pyInt (q : ℚ) : ℤ := if 0 ≤ q then ⌊q⌋ else ⌈q⌉

/-- One overlay window; `monitor` is the index of the display it is
anchored to (`_create_overlay` receives `monitors.get_item(i)`). -/
structure Overlay where
  monitor : ℕ

/-- The state of `FlashBorderApp` relevant to the claims: the
configuration fields stored by `__init__` (source lines 73-80), the
single shared `alpha`, and the list of overlay windows. -/
structure FlashBorderApp where
  color : ℚ × ℚ × ℚ
  border_width : ℤ
  hold : ℚ
  fade : ℚ
  alpha : ℚ
  windows : List Overlay

/-- `FlashBorderApp.__init__` (lines 73-80): stores the configuration,
sets `alpha = 1.0` and `windows = []`. -/
def FlashBorderApp.init (color : ℚ × ℚ × ℚ) (border_width : ℤ)
    (hold fade : ℚ) : FlashBorderApp :=
  { color := color, border_width := border_width, hold := hold, fade := fade,
    alpha := 1, windows := [] }

/-- `do_activate` (lines 82-93): appends one overlay window per detected
monitor to `self.windows` (and presents each). -/
def FlashBorderApp.do_activate (app : FlashBorderApp) (numMonitors : ℕ) :
    FlashBorderApp :=
  { app with
    windows := app.windows ++ (List.range numMonitors).map (fun i => { monitor := i }) }

/-- One `cr.rectangle(x, y, w, h); cr.fill()` call of the draw callback,
with the source color `(red, green, blue, a)` in effect. -/
structure RectFill where
  x : ℤ
  y : ℤ
  w : ℤ
  h : ℤ
  red : ℚ
  green : ℚ
  blue : ℚ
  a : ℚ

/-- `_draw_border` (lines 132-150): the four rectangle fills emitted for
a drawing area of size `width × height`, all painted with the shared
`self.color` and the shared `self.alpha`. -/
def FlashBorderApp.draw_border (app : FlashBorderApp) (width height : ℤ) :
    List RectFill :=
  let r := app.color.1
  let g := app.color.2.1
  let b := app.color.2.2
  let a := app.alpha
  let bw := app.border_width
  [{ x := 0, y := 0, w := width, h := bw, red := r, green := g, blue := b, a := a },
   { x := 0, y := height - bw, w := width, h := bw, red := r, green := g, blue := b, a := a },
   { x := 0, y := bw, w := bw, h := height - 2 * bw, red := r, green := g, blue := b, a := a },
   { x := width - bw, y := bw, w := bw, h := height - 2 * bw,
     red := r, green := g, blue := b, a := a }]

/-- A pixel `(px, py)` is covered by a rectangle fill: Cairo integer
rectangles cover the half-open box `[x, x+w) × [y, y+h)`. -/
def RectFill.covers (c : RectFill) (px py : ℤ) : Prop :=
  c.x ≤ px ∧ px < c.x + c.w ∧ c.y ≤ py ∧ py < c.y + c.h

/-- A pixel is painted by the border draw callback iff one of the four
emitted fills covers it. -/
def paintedAt (app : FlashBorderApp) (width height px py : ℤ) : Prop :=
  ∃ c ∈ app.draw_border width height, c.covers px py

/-- The outer frame of thickness `B` of a `W × H` window: inside the
window but outside the interior box `[B, W-B) × [B, H-B)`. -/
def inFrame (W H B px py : ℤ) : Prop :=
  (0 ≤ px ∧ px < W ∧ 0 ≤ py ∧ py < H) ∧
    ¬ (B ≤ px ∧ px < W - B ∧ B ≤ py ∧ py < H - B)

/-- Result of `_start_fade` (lines 152-160): either the application
quits at once (`self.fade <= 0`), or a repeating 16 ms tick is scheduled
after computing the step count and the per-tick alpha decrement. -/
inductive StartFadeResult
  | quit
  | scheduleTick (steps : ℕ) (alpha_step : ℚ)

/-- `_start_fade` (lines 152-160): `steps = max(1, int(fade * 1000 / 16))`
and `alpha_step = alpha / steps`. -/
def FlashBorderApp.start_fade (app : FlashBorderApp) : StartFadeResult :=
  if app.fade ≤ 0 then .quit
  else
    let interval_ms : ℚ := 16
    let steps : ℤ := max 1 (pyInt (app.fade * 1000 / interval_ms))
    .scheduleTick steps.toNat (app.alpha / (steps : ℚ))

/-- `_fade_tick` (lines 162-171): decrement the shared alpha by the
stored step; if the result is ≤ 0 quit and cancel the timer (`false`),
otherwise request a repaint of every overlay and continue (`true`). -/
def FlashBorderApp.fade_tick (app : FlashBorderApp) (alpha_step : ℚ) :
    FlashBorderApp × Bool :=
  let app2 := { app with alpha := app.alpha - alpha_step }
  if app2.alpha ≤ 0 then (app2, false) else (app2, true)

/-- The shared alpha after `k` fade ticks of decrement `alpha_step`,
starting from the hold-phase value `1.0` (`self.alpha` is initialized to
`1.0` and is first mutated by `_fade_tick`). -/
def alphaAfter (alpha_step : ℚ) : ℕ → ℚ
  | 0 => 1
  | k + 1 => alphaAfter alpha_step k - alpha_step

/-- Observable outcome of process startup. -/
structure ProcOutcome where
  stderrLines : List String
  exitCode : ℕ
  windowsCreated : ℕ

/-- The module-level startup guard (lines 24-29) followed by the normal
run: whether `CDLL("libgtk4-layer-shell.so")` succeeds is the parameter.
On failure the two diagnostics are printed to the error stream and the
process exits with status 1 before any window is created; on success
activation creates one overlay per monitor (with the default CLI
configuration here) and the event loop later terminates with status 0. -/
def programRun (layerShellAvailable : Bool) (numMonitors : ℕ) : ProcOutcome :=
  if layerShellAvailable then
    { stderrLines := [],
      exitCode := 0,
      windowsCreated :=
        ((FlashBorderApp.init (1, 0.6, 0) 6 0.4 0.3).do_activate numMonitors).windows.length }
  else
    { stderrLines := ["Error: libgtk4-layer-shell.so not found.",
                      "Install it: pacman -S gtk4-layer-shell"],
      exitCode := 1,
      windowsCreated := 0 }

/-- Every component of an RGB triple lies in the interval `[0, 1]`. -/
def in01 (t : ℚ × ℚ × ℚ) : Prop :=
  0 ≤ t.1 ∧ t.1 ≤ 1 ∧ 0 ≤ t.2.1 ∧ t.2.1 ≤ 1 ∧ 0 ≤ t.2.2 ∧ t.2.2 ≤ 1

theorem char_toNat_ofNat_valid {n : Nat} (h : n.isValidChar) :
    (Char.ofNat n).toNat = n := by
  simp [Char.ofNat, dif_pos h, Char.ofNatAux, Char.toNat, UInt32.toNat,
    BitVec.toNat_ofNatLt]

theorem pyLower_toNat (c : Char) :
    (pyLower c).toNat =
      if 65 ≤ c.toNat ∧ c.toNat ≤ 90 then c.toNat + 32 else c.toNat := by
  unfold pyLower
  split
  · next h => exact char_toNat_ofNat_valid (Or.inl (by omega))
  · rfl

theorem toNat_of_pyLower_eq {c d : Char} (h : pyLower c = d) :
    c.toNat = d.toNat ∨ c.toNat + 32 = d.toNat := by
  have h2 := congrArg Char.toNat h
  rw [pyLower_toNat] at h2
  split at h2 <;> omega

theorem isHexDigit_iff {c : Char} :
    isHexDigit c = true ↔
      (48 ≤ c.toNat ∧ c.toNat ≤ 57) ∨ (65 ≤ c.toNat ∧ c.toNat ≤ 70) ∨
        (97 ≤ c.toNat ∧ c.toNat ≤ 102) := by
  simp [isHexDigit, Bool.or_eq_true, decide_eq_true_eq]
  tauto

theorem pyLower_toNat_le_of_hex {c : Char} (h : isHexDigit c = true) :
    (pyLower c).toNat ≤ 102 := by
  rw [isHexDigit_iff] at h
  rw [pyLower_toNat]
  split <;> omega

theorem isPyWs_eq_false_of_hex {c : Char} (h : isHexDigit c = true) :
    isPyWs c = false := by
  rw [isHexDigit_iff] at h
  simp [isPyWs, decide_eq_true_eq]
  omega

theorem hexVal_le_of_hex {c : Char} (h : isHexDigit c = true) :
    hexVal c ≤ 15 := by
  rw [isHexDigit_iff] at h
  unfold hexVal
  split
  · omega
  · split <;> omega

theorem lookupColor_eq_none (k : List Char)
    (t : List (List Char × (ℚ × ℚ × ℚ))) (h : ∀ kv ∈ t, k ≠ kv.1) :
    lookupColor k t = none := by
  induction t with
  | nil => rfl
  | cons kv rest ih =>
    obtain ⟨k2, v⟩ := kv
    rw [lookupColor, if_neg (h (k2, v) (List.mem_cons_self _ _))]
    exact ih fun kv hm => h kv (List.mem_cons_of_mem _ hm)

theorem lookupColor_of_mem {k : List Char} {v : ℚ × ℚ × ℚ}
    (h : (k, v) ∈ NAMED_COLORS) : lookupColor k NAMED_COLORS = some v := by
  fin_cases h <;> rfl

theorem in01_of_mem_NAMED_COLORS {k : List Char} {v : ℚ × ℚ × ℚ}
    (h : (k, v) ∈ NAMED_COLORS) : in01 v := by
  fin_cases h <;> norm_num [in01]

/-- Every key of the table has a character above `f` (codepoint ≥ 103):
a key is never a string of hex digits, lowered or not. -/
theorem NAMED_COLORS_key_big :
    ∀ kv ∈ NAMED_COLORS, ∃ d ∈ kv.1, 103 ≤ d.toNat := by decide

/-- Every key of the table is a nonempty string of lowercase letters. -/
theorem NAMED_COLORS_key_letters :
    ∀ kv ∈ NAMED_COLORS,
      kv.1 ≠ [] ∧ ∀ d ∈ kv.1, 97 ≤ d.toNat ∧ d.toNat ≤ 122 := by decide

theorem in01_hexTriple (val : ℤ) : in01 (hexTriple val) := by
  have hb : ∀ n : ℤ, 0 ≤ pyAnd255 n ∧ pyAnd255 n ≤ 255 := by
    intro n
    unfold pyAnd255
    omega
  have hq : ∀ n : ℤ, 0 ≤ n → n ≤ 255 → 0 ≤ (n : ℚ) / 255 ∧ (n : ℚ) / 255 ≤ 1 := by
    intro n h0 h255
    constructor
    · positivity
    · rw [div_le_one (by norm_num)]
      exact_mod_cast h255
  unfold hexTriple in01
  refine ⟨?_, ?_, ?_, ?_, ?_, ?_⟩ <;>
    first
      | exact (hq _ (hb _).1 (hb _).2).1
      | exact (hq _ (hb _).1 (hb _).2).2

theorem dropWhile_eq_self_of (p : Char → Bool) (l : List Char)
    (h : ∀ c ∈ l, p c = false) : l.dropWhile p = l := by
  cases l with
  | nil => rfl
  | cons c rest =>
    rw [List.dropWhile_cons, h c (List.mem_cons_self _ _)]
    simp

theorem stripWs_eq_self (l : List Char) (h : ∀ c ∈ l, isPyWs c = false) :
    stripWs l = l := by
  unfold stripWs
  rw [dropWhile_eq_self_of _ _ h,
    dropWhile_eq_self_of _ _ (fun c hc => h c (List.mem_reverse.mp hc)),
    List.reverse_reverse]

theorem hexDigitsCore_all_hex (l : List Char) (acc : ℕ)
    (h : ∀ c ∈ l, isHexDigit c = true) :
    hexDigitsCore l false acc =
      some (l.foldl (fun a c => a * 16 + hexVal c) acc) := by
  induction l generalizing acc with
  | nil => rfl
  | cons c rest ih =>
    have hc : isHexDigit c = true := h c (List.mem_cons_self _ _)
    have hne : c ≠ '_' := by
      intro e
      subst e
      exact absurd hc (by decide)
    simp only [hexDigitsCore]
    rw [if_neg hne, if_pos hc, List.foldl_cons]
    exact ih _ fun d hd => h d (List.mem_cons_of_mem _ hd)

theorem pyIntHex_all_hex (c : Char) (rest : List Char)
    (h : ∀ d ∈ c :: rest, isHexDigit d = true) :
    pyIntHex (c :: rest) =
      some (((c :: rest).foldl (fun a d => a * 16 + hexVal d) 0 : ℕ) : ℤ) := by
  have hc : isHexDigit c = true := h c (List.mem_cons_self _ _)
  have hplus : c ≠ '+' := by intro e; subst e; exact absurd hc (by decide)
  have hminus : c ≠ '-' := by intro e; subst e; exact absurd hc (by decide)
  have hws : ∀ d ∈ c :: rest, isPyWs d = false :=
    fun d hd => isPyWs_eq_false_of_hex (h d hd)
  have hbody : hexBody (c :: rest) = some ((c :: rest).foldl
      (fun a d => a * 16 + hexVal d) 0) := by
    have hfold : ∀ l : List Char, (∀ d ∈ l, isHexDigit d = true) →
        ∀ c2 ∈ l, hexDigits l =
          some (l.foldl (fun a d => a * 16 + hexVal d) 0) := by
      intro l hl c2 hc2
      cases l with
      | nil => cases hc2
      | cons c3 rest3 =>
        simp only [hexDigits]
        rw [if_pos (hl c3 (List.mem_cons_self _ _)), List.foldl_cons,
          Nat.zero_mul, Nat.zero_add]
        exact hexDigitsCore_all_hex _ _ fun d hd =>
          hl d (List.mem_cons_of_mem _ hd)
    cases rest with
    | nil =>
      rw [show hexBody [c] = hexDigits [c] from rfl]
      exact hfold [c] h c (List.mem_cons_self _ _)
    | cons c1 rest1 =>
      have hc1 : isHexDigit c1 = true :=
        h c1 (List.mem_cons_of_mem _ (List.mem_cons_self _ _))
      have hnx : ¬ (c = '0' ∧ (c1 = 'x' ∨ c1 = 'X')) := by
        rintro ⟨-, hx | hx⟩ <;> (subst hx; exact absurd hc1 (by decide))
      simp only [hexBody]
      rw [if_neg hnx]
      exact hfold _ h c (List.mem_cons_self _ _)
  unfold pyIntHex
  rw [stripWs_eq_self _ hws, signedHexBody, if_neg hplus, if_neg hminus, hbody]
  rfl
theorem mem_of_lookupColor {k : List Char} {v : ℚ × ℚ × ℚ}
    {t : List (List Char × (ℚ × ℚ × ℚ))} (h : lookupColor k t = some v) :
    (k, v) ∈ t := by
  induction t with
  | nil => cases h
  | cons kv rest ih =>
    obtain ⟨k2, v2⟩ := kv
    rw [lookupColor] at h
    by_cases hk : k = k2
    · rw [if_pos hk] at h
      injection h with h
      rw [hk, h]
      exact List.mem_cons_self _ _
    · rw [if_neg hk] at h
      exact List.mem_cons_of_mem _ (ih h)

/-- Every 6-letter key of the table starts with a letter above `f`. -/
theorem NAMED_COLORS_key_len6 :
    ∀ kv ∈ NAMED_COLORS, kv.1.length = 6 → 103 ≤ (kv.1.headD 'a').toNat := by
  decide

/-- No table key starts with `#`, so a `#`-prefixed key never matches. -/
theorem lookupColor_hash_none (l : List Char) :
    lookupColor ('#' :: l) NAMED_COLORS = none := by
  apply lookupColor_eq_none
  intro kv hkv heq
  have h1 : ('#' : Char) ∈ kv.1 := heq ▸ List.mem_cons_self _ _
  have h2 := (NAMED_COLORS_key_letters kv hkv).2 '#' h1
  exact absurd h2 (by decide)

theorem isHexDigit_eq_false_of_pyLower_big {c : Char}
    (h : 103 ≤ (pyLower c).toNat) : isHexDigit c = false := by
  rw [pyLower_toNat] at h
  cases hb : isHexDigit c with
  | false => rfl
  | true =>
    exfalso
    rw [isHexDigit_iff] at hb
    split at h <;> omega

theorem isPyWs_eq_false_of_pyLower_letter {c : Char}
    (h : 97 ≤ (pyLower c).toNat) : isPyWs c = false := by
  rw [pyLower_toNat] at h
  cases hb : isPyWs c with
  | false => rfl
  | true =>
    exfalso
    simp only [isPyWs, Bool.or_eq_true, Bool.and_eq_true, decide_eq_true_eq] at hb
    split at h <;> omega

theorem toNat_ge_65_of_pyLower_letter {c : Char}
    (h : 97 ≤ (pyLower c).toNat) : 65 ≤ c.toNat := by
  rw [pyLower_toNat] at h
  split at h <;> omega

/-- Claim C4: hex decoding and fallback are exact: `"#ff9900"` and
`"ff9900"` both resolve to `(1, 0.6, 0)`; the wrong-length `"ff99"` and
the non-hex `"zzzzzz"` fall back to the fixed fallback color
`(1, 0, 0)`. -/
theorem parse_color_hex_and_fallback :
    parse_color "#ff9900" = (1, 0.6, 0) ∧ parse_color "ff9900" = (1, 0.6, 0) ∧
      parse_color "ff99" = (1, 0, 0) ∧ parse_color "zzzzzz" = (1, 0, 0) := by
  refine ⟨?_, ?_, rfl, rfl⟩
  · rw [show parse_color "#ff9900" = hexTriple 16750848 from rfl]
    norm_num [hexTriple, pyAnd255, pyShr]
  · rw [show parse_color "ff9900" = hexTriple 16750848 from rfl]
    norm_num [hexTriple, pyAnd255, pyShr]

/-- Claim C8: when the layer-shell library cannot be loaded, startup
prints the diagnostic and the remediation hint to the error stream and
exits with status 1, creating no window — whatever the number of
detected displays. -/
theorem startup_failure_exits_before_windows (numMonitors : ℕ) :
    programRun false numMonitors =
      { stderrLines := ["Error: libgtk4-layer-shell.so not found.",
                        "Install it: pacman -S gtk4-layer-shell"],
        exitCode := 1,
        windowsCreated := 0 } := rfl

/-- Claim C7: for every fade duration ≤ 0, `_start_fade` quits directly:
no fade tick is scheduled (so no repaint is requested and no alpha
decrement ever happens). -/
theorem start_fade_skips_when_nonpositive (app : FlashBorderApp)
    (h : app.fade ≤ 0) : app.start_fade = StartFadeResult.quit := by
  unfold FlashBorderApp.start_fade
  rw [if_pos h]

/-- Witness for C7 at the concrete fade duration 0. -/
theorem start_fade_skips_when_nonpositive_witness :
    (FlashBorderApp.init (1, 0.6, 0) 6 0.4 0).fade ≤ 0 ∧
      (FlashBorderApp.init (1, 0.6, 0) 6 0.4 0).start_fade =
        StartFadeResult.quit :=
  ⟨le_refl 0, start_fade_skips_when_nonpositive _ (le_refl 0)⟩

/-- Claim C3: the color resolver is total — it is a function defined on
every string (all fallible steps are handled internally, so no exception
escapes), and each component of the returned triple lies in `[0, 1]`. -/
theorem parse_color_total_in01 (name : String) : in01 (parse_color name) := by
  simp only [parse_color]
  cases hlk : lookupColor (name.data.map pyLower) NAMED_COLORS with
  | some c => exact in01_of_mem_NAMED_COLORS (mem_of_lookupColor hlk)
  | none =>
    by_cases hlen : (name.data.dropWhile fun c => c = '#').length = 6
    · rw [if_pos hlen]
      cases hpi : pyIntHex (name.data.dropWhile fun c => c = '#') with
      | some val => exact in01_hexTriple val
      | none => norm_num [in01]
    · rw [if_neg hlen]
      norm_num [in01]

/-- Claim C6: with `2B < min(W, H)`, the four rectangles emitted by the
draw callback cover exactly the outer frame of thickness `B`, and no
pixel of the open interior is filled. -/
theorem draw_border_paints_frame (app : FlashBorderApp) (W H : ℤ)
    (hB : 2 * app.border_width < min W H) :
    (∀ px py, paintedAt app W H px py ↔ inFrame W H app.border_width px py) ∧
      (∀ px py, app.border_width < px → px < W - app.border_width →
        app.border_width < py → py < H - app.border_width →
        ¬ paintedAt app W H px py) := by
  rw [lt_min_iff] at hB
  have hiff : ∀ px py,
      paintedAt app W H px py ↔ inFrame W H app.border_width px py := by
    intro px py
    simp only [paintedAt, FlashBorderApp.draw_border, RectFill.covers, inFrame,
      List.mem_cons, List.not_mem_nil, or_false, exists_eq_or_imp,
      exists_eq_left]
    omega
  refine ⟨hiff, ?_⟩
  intro px py h1 h2 h3 h4 hp
  have h5 := (hiff px py).mp hp
  rw [inFrame] at h5
  omega

/-- Witness for C6: a 10 × 20 window with border width 2. -/
theorem draw_border_paints_frame_witness :
    2 * (FlashBorderApp.init (1, 0, 0) 2 0.4 0.3).border_width < min 10 20 ∧
      ((∀ px py,
          paintedAt (FlashBorderApp.init (1, 0, 0) 2 0.4 0.3) 10 20 px py ↔
            inFrame 10 20 (FlashBorderApp.init (1, 0, 0) 2 0.4 0.3).border_width
              px py) ∧
        (∀ px py, (FlashBorderApp.init (1, 0, 0) 2 0.4 0.3).border_width < px →
          px < 10 - (FlashBorderApp.init (1, 0, 0) 2 0.4 0.3).border_width →
          (FlashBorderApp.init (1, 0, 0) 2 0.4 0.3).border_width < py →
          py < 20 - (FlashBorderApp.init (1, 0, 0) 2 0.4 0.3).border_width →
          ¬ paintedAt (FlashBorderApp.init (1, 0, 0) 2 0.4 0.3) 10 20 px py)) :=
  ⟨by norm_num [FlashBorderApp.init],
    draw_border_paints_frame _ 10 20 (by norm_num [FlashBorderApp.init])⟩

/-- Claim C9: activation creates exactly one overlay per detected
display (`windows.map monitor = range n`, hence `length = n`), and every
rectangle emitted by any overlay's draw callback carries the single
shared `alpha` field — so all overlays drawn in one tick use an
identical alpha. -/
theorem activate_one_overlay_per_display_shared_alpha :
    ∀ (color : ℚ × ℚ × ℚ) (bw : ℤ) (hold fade : ℚ) (n : ℕ)
      (app : FlashBorderApp) (W H : ℤ) (c : RectFill),
      ((FlashBorderApp.init color bw hold fade).do_activate n).windows.length = n ∧
        ((FlashBorderApp.init color bw hold fade).do_activate n).windows.map
            Overlay.monitor = List.range n ∧
        (c ∈ app.draw_border W H → c.a = app.alpha) := by
  intro color bw hold fade n app W H c
  refine ⟨?_, ?_, ?_⟩
  · simp [FlashBorderApp.init, FlashBorderApp.do_activate]
  · simp only [FlashBorderApp.init, FlashBorderApp.do_activate, List.map_map,
      List.nil_append]
    rw [show (Overlay.monitor ∘ fun i => ({ monitor := i } : Overlay)) = id
      from rfl, List.map_id]
  · intro hc
    simp only [FlashBorderApp.draw_border, List.mem_cons, List.not_mem_nil,
      or_false] at hc
    rcases hc with rfl | rfl | rfl | rfl <;> rfl

/-- Witness for C9: two displays, the default-style configuration, and
the top rectangle emitted for a 640 × 480 drawing area. -/
theorem activate_one_overlay_per_display_shared_alpha_witness :
    ((FlashBorderApp.init (0, 0.4, 1) 4 0.1 0.2).do_activate 2).windows.length = 2 ∧
      ((FlashBorderApp.init (0, 0.4, 1) 4 0.1 0.2).do_activate 2).windows.map
          Overlay.monitor = List.range 2 ∧
      ({ x := 0, y := 0, w := 640, h := 4, red := 0, green := 0.4, blue := 1,
          a := 1 } : RectFill).a =
        (FlashBorderApp.init (0, 0.4, 1) 4 0.1 0.2).alpha := by
  have h := activate_one_overlay_per_display_shared_alpha (0, 0.4, 1) 4 0.1 0.2 2
    (FlashBorderApp.init (0, 0.4, 1) 4 0.1 0.2) 640 480
    { x := 0, y := 0, w := 640, h := 4, red := 0, green := 0.4, blue := 1, a := 1 }
  exact ⟨h.1, h.2.1, h.2.2 (List.mem_cons_self _ _)⟩

/-- Claim C1 (amended): for every positive fade duration the step count
is `max(1, int(fade × 1000 / 16))` where `int` truncates toward zero
(equivalently `⌊·⌋` on a positive argument) — not `round` as the claim
stated — and the per-tick decrement is the current alpha divided by that
step count. -/
theorem start_fade_steps_floor (app : FlashBorderApp) (h : 0 < app.fade) :
    app.start_fade =
      StartFadeResult.scheduleTick (max 1 ⌊app.fade * 1000 / 16⌋).toNat
        (app.alpha / ((max 1 ⌊app.fade * 1000 / 16⌋ : ℤ) : ℚ)) := by
  have harg : (0 : ℚ) ≤ app.fade * 1000 / 16 := by positivity
  simp only [FlashBorderApp.start_fade, pyInt, if_pos harg]
  rw [if_neg (not_le.mpr h)]

/-- Witness for C1 (amended) at the default fade duration 0.3 s. -/
theorem start_fade_steps_floor_witness :
    0 < (FlashBorderApp.init (1, 0.6, 0) 6 0.4 0.3).fade ∧
      (FlashBorderApp.init (1, 0.6, 0) 6 0.4 0.3).start_fade =
        StartFadeResult.scheduleTick
          (max 1
            ⌊(FlashBorderApp.init (1, 0.6, 0) 6 0.4 0.3).fade * 1000 / 16⌋).toNat
          ((FlashBorderApp.init (1, 0.6, 0) 6 0.4 0.3).alpha /
            ((max 1
              ⌊(FlashBorderApp.init (1, 0.6, 0) 6 0.4 0.3).fade * 1000 / 16⌋ :
                ℤ) : ℚ)) :=
  ⟨by norm_num [FlashBorderApp.init],
    start_fade_steps_floor _ (by norm_num [FlashBorderApp.init])⟩

/-- Counterexample to C1 as stated: at fade = 0.03 s the argument is
1.875, the code computes `max(1, int(1.875)) = 1` steps (and decrement
1/1 = 1), while the claimed formula `max(1, round(1.875))` gives 2. -/
theorem start_fade_round_counterexample :
    (FlashBorderApp.init (1, 0.6, 0) 6 0.4 (3 / 100)).start_fade =
        StartFadeResult.scheduleTick 1 1 ∧
      (max 1 (round ((3 / 100 : ℚ) * 1000 / 16))).toNat = 2 := by
  constructor
  · norm_num [FlashBorderApp.start_fade, FlashBorderApp.init, pyInt]
  · have h2 : round ((3 / 100 : ℚ) * 1000 / 16) = 2 := by norm_num [round_eq]
    rw [h2]
    rfl

/-- Closed form of the tick iteration. -/
theorem alphaAfter_eq (step : ℚ) (k : ℕ) :
    alphaAfter step k = 1 - k * step := by
  induction k with
  | zero => simp [alphaAfter]
  | succ n ih =>
    rw [show alphaAfter step (n + 1) = alphaAfter step n - step from rfl, ih]
    push_cast
    ring

/-- Claim C5: for every positive fade duration, starting the fade from
the initial alpha 1.0 yields a non-increasing alpha across ticks, and
the alpha reaches ≤ 0 within `⌈fade × 1000 / 16⌉` ticks. -/
theorem fade_monotone_terminates (app : FlashBorderApp)
    (halpha : app.alpha = 1) (hf : 0 < app.fade) (steps : ℕ) (step : ℚ)
    (hs : app.start_fade = StartFadeResult.scheduleTick steps step) :
    (∀ k, alphaAfter step (k + 1) ≤ alphaAfter step k) ∧
      alphaAfter step (⌈app.fade * 1000 / 16⌉.toNat) ≤ 0 := by
  rw [start_fade_steps_floor app hf, halpha] at hs
  obtain ⟨hsteps, hstep⟩ := StartFadeResult.scheduleTick.inj hs
  have hM1 : (1 : ℤ) ≤ max 1 ⌊app.fade * 1000 / 16⌋ := le_max_left _ _
  have hMQ : (1 : ℚ) ≤ ((max 1 ⌊app.fade * 1000 / 16⌋ : ℤ) : ℚ) := by
    exact_mod_cast hM1
  have hstep_eq : step = 1 / ((max 1 ⌊app.fade * 1000 / 16⌋ : ℤ) : ℚ) := by
    rw [← hstep]
  have hstep_pos : 0 < step := by
    rw [hstep_eq]
    positivity
  constructor
  · intro k
    rw [show alphaAfter step (k + 1) = alphaAfter step k - step from rfl]
    linarith
  · rw [alphaAfter_eq]
    have hle : (max 1 ⌊app.fade * 1000 / 16⌋).toNat ≤
        ⌈app.fade * 1000 / 16⌉.toNat := by
      apply Int.toNat_le_toNat
      apply max_le
      · exact Int.ceil_pos.mpr (by positivity)
      · exact Int.floor_le_ceil _
    have hMtoNat : (((max 1 ⌊app.fade * 1000 / 16⌋).toNat : ℕ) : ℚ) =
        ((max 1 ⌊app.fade * 1000 / 16⌋ : ℤ) : ℚ) := by
      rw [← Int.cast_natCast]
      congr 1
      exact Int.toNat_of_nonneg (by omega)
    have hone : ((max 1 ⌊app.fade * 1000 / 16⌋).toNat : ℚ) * step = 1 := by
      rw [hstep_eq, hMtoNat]
      field_simp
    have hmono : ((max 1 ⌊app.fade * 1000 / 16⌋).toNat : ℚ) ≤
        (⌈app.fade * 1000 / 16⌉.toNat : ℚ) := by exact_mod_cast hle
    nlinarith [hstep_pos, hone, hmono]

/-- Witness for C5 at the default fade duration 0.3 s (18 steps of
decrement 1/18; ⌈18.75⌉ = 19 ticks suffice). -/
theorem fade_monotone_terminates_witness :
    (FlashBorderApp.init (1, 0.6, 0) 6 0.4 0.3).alpha = 1 ∧
      0 < (FlashBorderApp.init (1, 0.6, 0) 6 0.4 0.3).fade ∧
      (FlashBorderApp.init (1, 0.6, 0) 6 0.4 0.3).start_fade =
        StartFadeResult.scheduleTick 18 (1 / 18) ∧
      ((∀ k, alphaAfter (1 / 18) (k + 1) ≤ alphaAfter (1 / 18) k) ∧
        alphaAfter (1 / 18)
          (⌈(FlashBorderApp.init (1, 0.6, 0) 6 0.4 0.3).fade * 1000 / 16⌉.toNat)
          ≤ 0) := by
  have hs : (FlashBorderApp.init (1, 0.6, 0) 6 0.4 0.3).start_fade =
      StartFadeResult.scheduleTick 18 (1 / 18) := by
    norm_num [FlashBorderApp.start_fade, FlashBorderApp.init, pyInt]
    all_goals rfl
  exact ⟨rfl, by norm_num [FlashBorderApp.init], hs,
    fade_monotone_terminates _ rfl (by norm_num [FlashBorderApp.init])
      18 (1 / 18) hs⟩

/-- Channel extraction on a six-digit hex value: the first, middle and
last digit pairs come back out, each divided by 255. -/
theorem hexTriple_six (d0 d1 d2 d3 d4 d5 : ℕ)
    (h0 : d0 ≤ 15) (h1 : d1 ≤ 15) (h2 : d2 ≤ 15) (h3 : d3 ≤ 15)
    (h4 : d4 ≤ 15) (h5 : d5 ≤ 15) :
    hexTriple
        (((((((d0 * 16 + d1) * 16 + d2) * 16 + d3) * 16 + d4) * 16 + d5 :
          ℕ) : ℤ)) =
      (((d0 * 16 + d1 : ℕ) : ℚ) / 255, ((d2 * 16 + d3 : ℕ) : ℚ) / 255,
        ((d4 * 16 + d5 : ℕ) : ℚ) / 255) := by
  unfold hexTriple pyShr pyAnd255
  rw [show (2 : ℤ) ^ 16 = 65536 by norm_num, show (2 : ℤ) ^ 8 = 256 by norm_num]
  have e1 : ((((((d0 * 16 + d1) * 16 + d2) * 16 + d3) * 16 + d4) * 16 + d5 :
      ℕ) : ℤ) / 65536 % 256 = ((d0 * 16 + d1 : ℕ) : ℤ) := by
    push_cast
    omega
  have e2 : ((((((d0 * 16 + d1) * 16 + d2) * 16 + d3) * 16 + d4) * 16 + d5 :
      ℕ) : ℤ) / 256 % 256 = ((d2 * 16 + d3 : ℕ) : ℤ) := by
    push_cast
    omega
  have e3 : ((((((d0 * 16 + d1) * 16 + d2) * 16 + d3) * 16 + d4) * 16 + d5 :
      ℕ) : ℤ) % 256 = ((d4 * 16 + d5 : ℕ) : ℤ) := by
    push_cast
    omega
  rw [e1, e2, e3]
  simp only [Prod.mk.injEq, Int.cast_natCast]

/-- Claim C10 (implicit): hex decoding is case-insensitive — for every
six hex digits in any mix of cases, with or without a leading `#`, the
resolver returns the per-channel decode divided by 255. -/
theorem parse_color_hex_case_insensitive (c0 c1 c2 c3 c4 c5 : Char)
    (h0 : isHexDigit c0 = true) (h1 : isHexDigit c1 = true)
    (h2 : isHexDigit c2 = true) (h3 : isHexDigit c3 = true)
    (h4 : isHexDigit c4 = true) (h5 : isHexDigit c5 = true) :
    parse_color (String.mk [c0, c1, c2, c3, c4, c5]) =
        (((hexVal c0 * 16 + hexVal c1 : ℕ) : ℚ) / 255,
         ((hexVal c2 * 16 + hexVal c3 : ℕ) : ℚ) / 255,
         ((hexVal c4 * 16 + hexVal c5 : ℕ) : ℚ) / 255) ∧
      parse_color (String.mk ('#' :: [c0, c1, c2, c3, c4, c5])) =
        (((hexVal c0 * 16 + hexVal c1 : ℕ) : ℚ) / 255,
         ((hexVal c2 * 16 + hexVal c3 : ℕ) : ℚ) / 255,
         ((hexVal c4 * 16 + hexVal c5 : ℕ) : ℚ) / 255) := by
  have hall : ∀ d ∈ [c0, c1, c2, c3, c4, c5], isHexDigit d = true := by
    intro d hd
    simp only [List.mem_cons, List.not_mem_nil, or_false] at hd
    rcases hd with rfl | rfl | rfl | rfl | rfl | rfl <;> assumption
  have hlk : lookupColor ([c0, c1, c2, c3, c4, c5].map pyLower)
      NAMED_COLORS = none := by
    apply lookupColor_eq_none
    intro kv hkv heq
    obtain ⟨d, hd, hdbig⟩ := NAMED_COLORS_key_big kv hkv
    rw [← heq] at hd
    obtain ⟨cc, hcc, rfl⟩ := List.mem_map.mp hd
    have hle := pyLower_toNat_le_of_hex (hall cc hcc)
    omega
  have hpi := pyIntHex_all_hex c0 [c1, c2, c3, c4, c5] hall
  rw [List.foldl_cons, List.foldl_cons, List.foldl_cons, List.foldl_cons,
    List.foldl_cons, List.foldl_cons, List.foldl_nil, Nat.zero_mul,
    Nat.zero_add] at hpi
  have hc0hash : c0 ≠ '#' := by
    intro e
    have hborder := hall c0 (List.mem_cons_self _ _)
    rw [e] at hborder
    exact absurd hborder (by decide)
  have htarget := hexTriple_six (hexVal c0) (hexVal c1) (hexVal c2) (hexVal c3)
    (hexVal c4) (hexVal c5) (hexVal_le_of_hex h0) (hexVal_le_of_hex h1)
    (hexVal_le_of_hex h2) (hexVal_le_of_hex h3) (hexVal_le_of_hex h4)
    (hexVal_le_of_hex h5)
  constructor
  · have hdrop : [c0, c1, c2, c3, c4, c5].dropWhile (fun c => c = '#') =
        [c0, c1, c2, c3, c4, c5] := by
      rw [List.dropWhile_cons]
      simp [hc0hash]
    simp only [parse_color, hlk, hdrop, hpi, List.length_cons,
      List.length_nil]
    exact htarget
  · have hdrop2 : ('#' :: [c0, c1, c2, c3, c4, c5]).dropWhile
        (fun c => c = '#') = [c0, c1, c2, c3, c4, c5] := by
      rw [List.dropWhile_cons, List.dropWhile_cons]
      simp [hc0hash]
    have hlk2 : lookupColor (('#' :: [c0, c1, c2, c3, c4, c5]).map pyLower)
        NAMED_COLORS = none := by
      rw [List.map_cons, show pyLower '#' = '#' from rfl]
      exact lookupColor_hash_none _
    simp only [parse_color, hlk2, hdrop2, hpi, List.length_cons,
      List.length_nil]
    exact htarget

/-- Witness for C10 at the mixed-case input `Ff9900`, with and without a
leading `#`. -/
theorem parse_color_hex_case_insensitive_witness :
    isHexDigit 'F' = true ∧ isHexDigit 'f' = true ∧ isHexDigit '9' = true ∧
      isHexDigit '0' = true ∧
      (parse_color (String.mk ['F', 'f', '9', '9', '0', '0']) =
          (((hexVal 'F' * 16 + hexVal 'f' : ℕ) : ℚ) / 255,
           ((hexVal '9' * 16 + hexVal '9' : ℕ) : ℚ) / 255,
           ((hexVal '0' * 16 + hexVal '0' : ℕ) : ℚ) / 255) ∧
        parse_color (String.mk ('#' :: ['F', 'f', '9', '9', '0', '0'])) =
          (((hexVal 'F' * 16 + hexVal 'f' : ℕ) : ℚ) / 255,
           ((hexVal '9' * 16 + hexVal '9' : ℕ) : ℚ) / 255,
           ((hexVal '0' * 16 + hexVal '0' : ℕ) : ℚ) / 255)) :=
  ⟨rfl, rfl, rfl, rfl,
    parse_color_hex_case_insensitive 'F' 'f' '9' '9' '0' '0'
      rfl rfl rfl rfl rfl rfl⟩

/-- Claim C2 (amended): a named color resolves to its table value for
every case variant of the key — but only without a leading `#`.  The
membership test uses `name.lower()` without stripping the `#` (the
stripped local `lower` is computed and never used), so a `#`-prefixed
name never matches the table and falls through to the fallback color
`(1, 0, 0)` (coinciding with the table value only for `red`). -/
theorem parse_color_named_case_variants (key : List Char) (val : ℚ × ℚ × ℚ)
    (hmem : (key, val) ∈ NAMED_COLORS) (s : List Char)
    (hlow : s.map pyLower = key) :
    parse_color (String.mk s) = val ∧
      parse_color (String.mk ('#' :: s)) = (1, 0, 0) := by
  subst hlow
  obtain ⟨hkne, hletters⟩ := NAMED_COLORS_key_letters (s.map pyLower, val) hmem
  cases s with
  | nil => exact absurd rfl hkne
  | cons s0 stail =>
    have hlet0 : 97 ≤ (pyLower s0).toNat ∧ (pyLower s0).toNat ≤ 122 := by
      apply hletters
      rw [List.map_cons]
      exact List.mem_cons_self _ _
    have hs0hash : s0 ≠ '#' := by
      intro e
      subst e
      rw [show pyLower '#' = '#' from rfl] at hlet0
      exact absurd hlet0 (by decide)
    constructor
    · simp only [parse_color, lookupColor_of_mem hmem]
    · have hdropB : ('#' :: s0 :: stail).dropWhile (fun c => c = '#') =
          s0 :: stail := by
        rw [List.dropWhile_cons, List.dropWhile_cons]
        simp [hs0hash]
      have hlkB : lookupColor (('#' :: s0 :: stail).map pyLower)
          NAMED_COLORS = none := by
        rw [List.map_cons, show pyLower '#' = '#' from rfl]
        exact lookupColor_hash_none _
      by_cases hlen : (s0 :: stail).length = 6
      · have hlen2 : ((s0 :: stail).map pyLower).length = 6 := by
          rw [List.length_map]
          exact hlen
        have hhead := NAMED_COLORS_key_len6 ((s0 :: stail).map pyLower, val)
          hmem hlen2
        rw [List.map_cons, List.headD_cons] at hhead
        have hs0hex : isHexDigit s0 = false :=
          isHexDigit_eq_false_of_pyLower_big hhead
        have hs0ge : 65 ≤ s0.toNat := toNat_ge_65_of_pyLower_letter hlet0.1
        have hws : ∀ d ∈ s0 :: stail, isPyWs d = false := by
          intro d hd
          apply isPyWs_eq_false_of_pyLower_letter
          exact (hletters (pyLower d) (List.mem_map_of_mem _ hd)).1
        have hplus : s0 ≠ '+' := by
          intro e
          rw [e] at hs0ge
          exact absurd hs0ge (by decide)
        have hminus : s0 ≠ '-' := by
          intro e
          rw [e] at hs0ge
          exact absurd hs0ge (by decide)
        have hpin : pyIntHex (s0 :: stail) = none := by
          unfold pyIntHex
          rw [stripWs_eq_self _ hws]
          simp only [signedHexBody]
          rw [if_neg hplus, if_neg hminus]
          cases stail with
          | nil => simp at hlen
          | cons s1 srest =>
            have h0x : ¬ (s0 = '0' ∧ (s1 = 'x' ∨ s1 = 'X')) := by
              rintro ⟨e, -⟩
              rw [e] at hs0ge
              exact absurd hs0ge (by decide)
            simp only [hexBody]
            rw [if_neg h0x]
            simp only [hexDigits]
            rw [if_neg (by simp [hs0hex])]
            rfl
        simp only [parse_color, hlkB, hdropB, hlen, hpin, ite_self]
      · simp only [parse_color, hlkB, hdropB]
        rw [if_neg hlen]

/-- Witness for C2 (amended): the case variant `Blue` of the key `blue`,
with and without a leading `#`. -/
theorem parse_color_named_case_variants_witness :
    ("blue".data, ((0 : ℚ), 0.4, 1)) ∈ NAMED_COLORS ∧
      ['B', 'l', 'u', 'e'].map pyLower = "blue".data ∧
      (parse_color (String.mk ['B', 'l', 'u', 'e']) = (0, 0.4, 1) ∧
        parse_color (String.mk ('#' :: ['B', 'l', 'u', 'e'])) = (1, 0, 0)) :=
  ⟨by simp [NAMED_COLORS], by decide,
    parse_color_named_case_variants "blue".data (0, 0.4, 1)
      (by simp [NAMED_COLORS]) ['B', 'l', 'u', 'e'] (by decide)⟩

/-- Counterexample to C2 as stated: the claim requires `"#blue"` to
resolve to the table value of `blue`, namely `(0, 0.4, 1)`, but the
resolver returns the fallback `(1, 0, 0)`. -/
theorem parse_color_hash_named_counterexample :
    ("blue".data, ((0 : ℚ), 0.4, 1)) ∈ NAMED_COLORS ∧
      parse_color "#blue" = (1, 0, 0) ∧
      ((1 : ℚ), (0 : ℚ), (0 : ℚ)) ≠ ((0 : ℚ), (0.4 : ℚ), (1 : ℚ)) := by
  refine ⟨by simp [NAMED_COLORS], rfl, ?_⟩
  intro h
  have h1 := congrArg Prod.fst h
  norm_num at h1
